import Mathlib

/-!
Shallow embedding of the static-site generator in `build.py`
(frontmatter parsing, minimal markdown rendering, post building and
index sorting), together with theorems checking the natural-language
specification against it.

Strings are modelled as `List Char`; Python dicts as insertion-ordered
association lists; file I/O (reading sources, writing pages) is outside
the model, which covers the pure text-processing core.
-/

namespace Build

/-- Abbreviation turning a string literal into the `List Char` the model works on. -/
def str (s : String) : List Char := s.toList

/-- Python `str.strip` whitespace class (ASCII whitespace). -/
def isSpc (c : Char) : Bool :=
  c = ' ' ∨ c = '\t' ∨ c = '\n' ∨ c = '\r' ∨ c = '\x0b' ∨ c = '\x0c'

/-- Remove leading whitespace (left half of Python `str.strip`). -/
def trimLeft (l : List Char) : List Char := l.dropWhile isSpc

/-- Remove trailing whitespace (right half of Python `str.strip`). -/
def trimRight (l : List Char) : List Char := (l.reverse.dropWhile isSpc).reverse

/-- Python `str.strip`: remove leading and trailing whitespace. -/
def trim (l : List Char) : List Char := trimRight (trimLeft l)

/-- Python `str.split('\n')`: split on every newline; `''.split('\n') = ['']`. -/
def splitOnNl : List Char → List (List Char)
  | [] => [[]]
  | c :: rest =>
    if c = '\n' then [] :: splitOnNl rest
    else (c :: (splitOnNl rest).headD []) :: (splitOnNl rest).tail

/-- Split a list at the first occurrence of `pat`, returning the part before
the occurrence and the part after it (`none` when `pat` does not occur).
This models the non-greedy regex group `(.*?)` followed by the literal `pat`:
the regex engine commits to the earliest possible occurrence. -/
def splitFirst (pat : List Char) : List Char → Option (List Char × List Char)
  | [] => if pat.isPrefixOf ([] : List Char) then some ([], []) else none
  | c :: rest =>
    if pat.isPrefixOf (c :: rest) then some ([], (c :: rest).drop pat.length)
    else
      match splitFirst pat rest with
      | some (pre, post) => some (c :: pre, post)
      | none => none

/-- Python dict assignment `m[k] = v`: if the key is present its value is
updated in place (insertion position kept), otherwise the pair is appended. -/
def insertKV (m : List (List Char × List Char)) (k v : List Char) :
    List (List Char × List Char) :=
  if m.any (fun p => p.1 == k) then m.map (fun p => if p.1 == k then (k, v) else p)
  else m ++ [(k, v)]

/-- Python `dict.get`: the value stored for `k`, if any. -/
def dictGet (m : List (List Char × List Char)) (k : List Char) : Option (List Char) :=
  (m.find? (fun p => p.1 == k)).map Prod.snd

/-- One frontmatter line, per `build.py` lines 14-16: if the line contains a
colon it is split on the first colon into a stripped key and stripped value. -/
def lineKV (line : List Char) : Option (List Char × List Char) :=
  if (':' : Char) ∈ line then
    some (trim (line.takeWhile (fun c => c ≠ ':')),
          trim (line.drop ((line.takeWhile (fun c => c ≠ ':')).length + 1)))
  else none

/-- Fold step of the frontmatter loop: a `key: value` line updates the dict,
any other line is ignored. -/
def fmLine (m : List (List Char × List Char)) (line : List Char) :
    List (List Char × List Char) :=
  match lineKV line with
  | some (k, v) => insertKV m k v
  | none => m

/-- The `for line in match.group(1).split('\n')` loop of `parse_frontmatter`. -/
def parseFmLines (lines : List (List Char)) : List (List Char × List Char) :=
  lines.foldl fmLine []

/-- The regex match `re.match(r'^---\n(.*?)\n---\n(.*)$', content, re.DOTALL)`:
the text must start with the opening `---` line; group 1 is everything up to
the first later `\n---\n` (non-greedy), group 2 is everything after it. -/
def fmSplit (content : List Char) : Option (List Char × List Char) :=
  if (str "---\n").isPrefixOf content then splitFirst (str "\n---\n") (content.drop 4)
  else none

/-- `parse_frontmatter` from `build.py`: on a regex match, build the metadata
dict from group 1's lines and return group 2 as the body; otherwise return an
empty dict and the content unchanged. -/
def parse_frontmatter (content : List Char) :
    List (List Char × List Char) × List Char :=
  match fmSplit content with
  | some (pre, post) => (parseFmLines (splitOnNl pre), post)
  | none => ([], content)

/-! ## Markdown renderer (`markdown_to_html`)

Each regex substitution of `markdown_to_html` is modelled by a scanner that
walks the text left to right exactly as the regex engine does: at each
position it tries to match the pattern (committing to the shortest match for
non-greedy groups), emits the replacement and resumes after the match, or
advances one character. The scanners carry a fuel argument bounded by the
text length so that all recursion is structural and computations reduce in
the kernel. -/

/-- Heading rule on one line: `re.sub(r'^## (.+)$', r'<h2>\1</h2>', ..., re.MULTILINE)`.
`(.+)` requires at least one character after the marker. -/
def subH2Line (l : List Char) : List Char :=
  if (str "## ").isPrefixOf l ∧ l.drop 3 ≠ [] then
    (str "<h2>") ++ l.drop 3 ++ (str "</h2>")
  else l

/-- Heading rule on one line: `re.sub(r'^# (.+)$', r'<h1>\1</h1>', ..., re.MULTILINE)`. -/
def subH1Line (l : List Char) : List Char :=
  if (str "# ").isPrefixOf l ∧ l.drop 2 ≠ [] then
    (str "<h1>") ++ l.drop 2 ++ (str "</h1>")
  else l

/-- A `re.MULTILINE` line-anchored substitution acts on each line separately. -/
def mapLines (f : List Char → List Char) (s : List Char) : List Char :=
  List.intercalate ['\n'] ((splitOnNl s).map f)

def subH2 (s : List Char) : List Char := mapLines subH2Line s

def subH1 (s : List Char) : List Char := mapLines subH1Line s

/-- Scan for the closing backtick of `` `([^`]+)` ``: the content may be any
characters other than a backtick (newlines included, since `[^`]` matches
them). The accumulator holds the reversed content read so far. -/
def codeScan : List Char → List Char → Option (List Char × List Char)
  | acc, c :: rest => if c = '`' then some (acc.reverse, rest) else codeScan (c :: acc) rest
  | _, [] => none

/-- One pass of `` re.sub(r'`([^`]+)`', r'<code>\1</code>', html) ``. -/
def subCodeGo : Nat → List Char → List Char
  | 0, l => l
  | _ + 1, [] => []
  | fuel + 1, '`' :: rest =>
    match rest with
    | c :: rest2 =>
      if c = '`' then '`' :: subCodeGo fuel rest
      else
        match codeScan [c] rest2 with
        | some (content, rest') =>
          (str "<code>") ++ content ++ (str "</code>") ++ subCodeGo fuel rest'
        | none => '`' :: subCodeGo fuel rest
    | [] => ['`']
  | fuel + 1, c :: rest => c :: subCodeGo fuel rest

def subCode (l : List Char) : List Char := subCodeGo l.length l

/-- Scan for the closing `**` of `\*\*(.+?)\*\*`: non-greedy, so the first
later `**` closes the span; `.` does not match a newline. -/
def strongScan : List Char → List Char → Option (List Char × List Char)
  | acc, '*' :: '*' :: rest => some (acc.reverse, rest)
  | acc, c :: rest => if c = '\n' then none else strongScan (c :: acc) rest
  | _, [] => none

/-- One pass of `re.sub(r'\*\*(.+?)\*\*', r'<strong>\1</strong>', html)`. -/
def subStrongGo : Nat → List Char → List Char
  | 0, l => l
  | _ + 1, [] => []
  | fuel + 1, '*' :: '*' :: rest =>
    match rest with
    | c :: rest2 =>
      if c = '\n' then '*' :: subStrongGo fuel ('*' :: rest)
      else
        match strongScan [c] rest2 with
        | some (content, rest') =>
          (str "<strong>") ++ content ++ (str "</strong>") ++ subStrongGo fuel rest'
        | none => '*' :: subStrongGo fuel ('*' :: rest)
    | [] => str "**"
  | fuel + 1, c :: rest => c :: subStrongGo fuel rest

def subStrong (l : List Char) : List Char := subStrongGo l.length l

/-- Scan for a closing character at distance ≥ 1, the content being any
non-newline characters: models the non-greedy `(.+?)` before a one-character
literal (`\*` for italics, `\)` for the link URL). -/
def closeScan (cl : Char) : List Char → List Char → Option (List Char × List Char)
  | acc, c :: rest =>
    if c = cl then some (acc.reverse, rest)
    else if c = '\n' then none
    else closeScan cl (c :: acc) rest
  | _, [] => none

/-- One pass of `re.sub(r'\*(.+?)\*', r'<em>\1</em>', html)`. -/
def subEmGo : Nat → List Char → List Char
  | 0, l => l
  | _ + 1, [] => []
  | fuel + 1, '*' :: rest =>
    match rest with
    | c :: rest2 =>
      if c = '\n' then '*' :: subEmGo fuel rest
      else
        match closeScan '*' [c] rest2 with
        | some (content, rest') =>
          (str "<em>") ++ content ++ (str "</em>") ++ subEmGo fuel rest'
        | none => '*' :: subEmGo fuel rest
    | [] => ['*']
  | fuel + 1, c :: rest => c :: subEmGo fuel rest

def subEm (l : List Char) : List Char := subEmGo l.length l

/-- Scan for `\]\((.+?)\)` after the label of `\[(.+?)\]\((.+?)\)`.
The accumulator holds the reversed label so far. On `](`, the URL part is
tried; if no `)` closes it before a newline or the end, the engine
backtracks and the label keeps growing past this `](`. -/
def linkScan : Nat → List Char → List Char → Option (List Char × List Char × List Char)
  | 0, _, _ => none
  | _ + 1, _, [] => none
  | fuel + 1, acc, c :: rest =>
    match c, rest with
    | ']', '(' :: rest2 =>
      match rest2 with
      | d :: rest3 =>
        if d = '\n' then none
        else
          match closeScan ')' [d] rest3 with
          | some (url, rest') => some (acc.reverse, url, rest')
          | none => linkScan fuel (']' :: acc) ('(' :: rest2)
      | [] => none
    | c, rest => if c = '\n' then none else linkScan fuel (c :: acc) rest

/-- One pass of `re.sub(r'\[(.+?)\]\((.+?)\)', r'<a href="\2">\1</a>', html)`. -/
def subLinkGo : Nat → List Char → List Char
  | 0, l => l
  | _ + 1, [] => []
  | fuel + 1, '[' :: rest =>
    match rest with
    | c :: rest2 =>
      if c = '\n' then '[' :: subLinkGo fuel rest
      else
        match linkScan rest2.length [c] rest2 with
        | some (label, url, rest') =>
          (str "<a href=\x22") ++ url ++ (str "\x22>") ++ label ++ (str "</a>") ++
            subLinkGo fuel rest'
        | none => '[' :: subLinkGo fuel rest
    | [] => ['[']
  | fuel + 1, c :: rest => c :: subLinkGo fuel rest

def subLink (l : List Char) : List Char := subLinkGo l.length l

/-- The six substitutions of `markdown_to_html`, applied in source order. -/
def mdSubs (md : List Char) : List Char :=
  subLink (subEm (subStrong (subCode (subH1 (subH2 md)))))

/-- Python `html.split('\n\n')`: split on each (non-overlapping) blank-line
separator, scanning left to right. -/
def splitOn2Nl : List Char → List (List Char)
  | [] => [[]]
  | '\n' :: '\n' :: rest => [] :: splitOn2Nl rest
  | c :: rest => (c :: (splitOn2Nl rest).headD []) :: (splitOn2Nl rest).tail

/-- The paragraph loop body of `markdown_to_html`: strip the block, drop it if
empty, wrap it in `<p>…</p>` unless it already starts with a heading tag. -/
def blockOut (bl : List Char) : Option (List Char) :=
  let b := trim bl
  if b = [] then none
  else if (str "<h").isPrefixOf b then some b
  else some ((str "<p>") ++ b ++ (str "</p>"))

/-- The list `paragraphs` accumulated by `markdown_to_html`. -/
def mdBlocks (md : List Char) : List (List Char) :=
  (splitOn2Nl (mdSubs md)).filterMap blockOut

/-- `markdown_to_html` from `build.py`: substitutions, then paragraph
wrapping, then `'\n\n'.join(paragraphs)`. -/
def markdown_to_html (md : List Char) : List Char :=
  List.intercalate (str "\n\n") (mdBlocks md)

/-! ## Date handling (`datetime.strptime(date, '%Y-%m-%d')` / `strftime('%B %d, %Y')`)

CPython's `strptime` compiles `'%Y-%m-%d'` to the regex
`(?P<Y>\d\d\d\d)-(?P<m>1[0-2]|0[1-9]|[1-9])-(?P<d>3[01]|[12]\d|0[1-9]|[1-9])`,
requires the whole input to be consumed, and then the `datetime` constructor
checks `MINYEAR <= year` and that the day fits the month (with leap years).
The alternations are tried in order with backtracking inside the regex; the
full-consumption check happens after the regex has committed to a match. -/

def digVal (c : Char) : Nat := c.toNat - 48

/-- The two-digit month alternatives `1[0-2]|0[1-9]`. -/
def month2 : List Char → Option (Nat × List Char)
  | '1' :: c :: rest =>
    if c = '0' ∨ c = '1' ∨ c = '2' then some (10 + digVal c, rest) else none
  | '0' :: c :: rest =>
    if '1' ≤ c ∧ c ≤ '9' then some (digVal c, rest) else none
  | _ => none

/-- The one-digit alternative `[1-9]` (last alternative for month and day). -/
def dig1 : List Char → Option (Nat × List Char)
  | c :: rest => if '1' ≤ c ∧ c ≤ '9' then some (digVal c, rest) else none
  | [] => none

/-- The two-digit day alternatives `3[01]|[12]\d|0[1-9]`, in regex order. -/
def day2 : List Char → Option (Nat × List Char)
  | '3' :: c :: rest => if c = '0' ∨ c = '1' then some (30 + digVal c, rest) else none
  | c1 :: c2 :: rest =>
    if (c1 = '1' ∨ c1 = '2') ∧ c2.isDigit then some (digVal c1 * 10 + digVal c2, rest)
    else if c1 = '0' ∧ '1' ≤ c2 ∧ c2 ≤ '9' then some (digVal c2, rest)
    else none
  | _ => none

/-- Day field: two-digit alternatives first, then `[1-9]`. -/
def dayMatch (s : List Char) : Option (Nat × List Char) :=
  (day2 s).orElse (fun _ => dig1 s)

/-- Month‐then‐day with a literal `-` in between, starting from the one-digit
month alternative (used when the two-digit month branch fails inside the regex). -/
def md1 (rest : List Char) : Option (Nat × Nat × List Char) :=
  match dig1 rest with
  | some (m, '-' :: rest2) =>
    match dayMatch rest2 with
    | some (d, leftover) => some (m, d, leftover)
    | none => none
  | _ => none

/-- Month-then-day with regex backtracking: the two-digit month branch is
committed to only if `-` and a day alternative follow; otherwise the engine
falls back to the one-digit month branch. -/
def mdMatch (rest : List Char) : Option (Nat × Nat × List Char) :=
  match month2 rest with
  | some (m, '-' :: rest2) =>
    match dayMatch rest2 with
    | some (d, leftover) => some (m, d, leftover)
    | none => md1 rest
  | _ => md1 rest

def isLeap (y : Nat) : Bool := y % 4 = 0 ∧ (y % 100 ≠ 0 ∨ y % 400 = 0)

def daysInMonth (y m : Nat) : Nat :=
  if m = 2 then (if isLeap y then 29 else 28)
  else if m = 4 ∨ m = 6 ∨ m = 9 ∨ m = 11 then 30
  else 31

/-- `datetime.strptime(s, '%Y-%m-%d')` as a partial parse: `some (y, m, d)`
on success, `none` when a `ValueError` is raised (regex mismatch, leftover
input, year 0, or a day that does not exist in the month). -/
def dateParse (s : List Char) : Option (Nat × Nat × Nat) :=
  match s with
  | y1 :: y2 :: y3 :: y4 :: '-' :: rest =>
    if y1.isDigit ∧ y2.isDigit ∧ y3.isDigit ∧ y4.isDigit then
      let y := digVal y1 * 1000 + digVal y2 * 100 + digVal y3 * 10 + digVal y4
      match mdMatch rest with
      | some (m, d, leftover) =>
        if leftover = [] ∧ 1 ≤ y ∧ 1 ≤ d ∧ d ≤ daysInMonth y m then some (y, m, d)
        else none
      | none => none
    else none
  | _ => none

def monthName : Nat → List Char
  | 1 => str "January"
  | 2 => str "February"
  | 3 => str "March"
  | 4 => str "April"
  | 5 => str "May"
  | 6 => str "June"
  | 7 => str "July"
  | 8 => str "August"
  | 9 => str "September"
  | 10 => str "October"
  | 11 => str "November"
  | 12 => str "December"
  | _ => []

/-- `%d`: zero-padded two-digit day. -/
def pad2 (n : Nat) : List Char := if n < 10 then '0' :: Nat.toDigits 10 n else Nat.toDigits 10 n

/-- `date_obj.strftime('%B %d, %Y')`: long month name, zero-padded day,
year in plain decimal (glibc prints `%Y` without padding). -/
def formatDate (y m d : Nat) : List Char :=
  monthName m ++ [' '] ++ pad2 d ++ (str ", ") ++ Nat.toDigits 10 y

/-! ## Post builder (`build_post`) and index sorting (`build_index`)

File reading/writing and the surrounding HTML page template are I/O and are
outside the model; `build_post` is modelled as the per-document record it
returns, given the document text and the slug derived from the filename. -/

/-- The dict returned by `build_post`. -/
structure PostRec where
  title : List Char
  date : List Char
  formatted_date : List Char
  slug : List Char
deriving DecidableEq

/-- `build_post` from `build.py` (its pure core): parse the frontmatter,
default the title to `'Untitled'` and the date to `''`, and on a present
date format it when `strptime` succeeds, falling back to the raw string on
a parse error. The rendered body (`markdown_to_html body`) only feeds the
written page, not the returned record. -/
def build_post (content slug : List Char) : PostRec :=
  let meta := (parse_frontmatter content).1
  let title := (dictGet meta (str "title")).getD (str "Untitled")
  let date := (dictGet meta (str "date")).getD []
  let formatted_date :=
    if date ≠ [] then
      match dateParse date with
      | some (y, m, d) => formatDate y m d
      | none => date
    else []
  { title := title, date := date, formatted_date := formatted_date, slug := slug }

/-- The `__main__` batch loop: every document contributes the record
`build_post` returns; nothing is ever skipped. -/
def build_batch (docs : List (List Char × List Char)) : List PostRec :=
  docs.map (fun d => build_post d.1 d.2)

/-- Lexicographic string comparison (`≤`), as Python compares `str` values. -/
def lexLe : List Char → List Char → Bool
  | [], _ => true
  | _ :: _, [] => false
  | a :: as, b :: bs => if a < b then true else if b < a then false else lexLe as bs

/-- The descending-by-date relation used by
`sorted(posts, key=lambda p: p['date'], reverse=True)`:
`p` may come before `q` iff `q`'s date is lexicographically ≤ `p`'s. -/
def postGe (p q : PostRec) : Prop := lexLe q.date p.date = true

instance : DecidableRel postGe :=
  fun p q => inferInstanceAs (Decidable (lexLe q.date p.date = true))

/-- The ordering step of `build_index`: Python's `sorted` with
`reverse=True` is a stable descending sort, modelled by the stable
`insertionSort` under `postGe`. -/
def build_index_sorted (posts : List PostRec) : List PostRec :=
  List.insertionSort postGe posts

/-- Specification-side reading of the duplicate-key rule (§4.1 of the spec):
the value recorded for a key is the one from the **last** line whose trimmed
key equals it; used to compare the dict built by `parse_frontmatter` against
the spec's words. -/
def specLastKV (lines : List (List Char)) (k : List Char) : Option (List Char) :=
  ((lines.filterMap lineKV).reverse.find? (fun p => p.1 == k)).map Prod.snd

/-! ## Lemmas about stripping -/

theorem dropWhile_head_false (p : Char → Bool) (L : List Char) :
    ∀ d zs, L.dropWhile p = d :: zs → p d = false := by
  induction L with
  | nil => intro d zs h; simp at h
  | cons c rest ih =>
    intro d zs h
    rw [List.dropWhile_cons] at h
    cases hc : p c
    · rw [hc] at h
      simp at h
      rw [← h.1]
      exact hc
    · rw [hc] at h
      simp at h
      exact ih d zs h

theorem trimLeft_cons (c : Char) (l : List Char) (h : isSpc c = false) :
    trimLeft (c :: l) = c :: l := by
  simp [trimLeft, List.dropWhile_cons, h]

theorem trimRight_concat (l : List Char) (c : Char) (h : isSpc c = false) :
    trimRight (l ++ [c]) = l ++ [c] := by
  simp [trimRight, List.dropWhile_cons, h]

theorem trimRight_prefix_self (l : List Char) : trimRight l <+: l := by
  rw [trimRight]
  have h2 := List.reverse_prefix.mpr (List.dropWhile_suffix (l := l.reverse) isSpc)
  rwa [List.reverse_reverse] at h2

theorem trim_trim (l : List Char) : trim (trim l) = trim l := by
  rcases h : trim l with _ | ⟨c, xs⟩
  · rfl
  · have hpre : trim l <+: trimLeft l := trimRight_prefix_self (trimLeft l)
    rw [h] at hpre
    obtain ⟨t, ht⟩ := hpre
    have hc : isSpc c = false := by
      apply dropWhile_head_false isSpc l c (xs ++ t)
      exact ht.symm
    rcases hd : List.dropWhile isSpc (trimLeft l).reverse with _ | ⟨d, zs⟩
    · have hw : trim l = [] := by
        rw [trim, trimRight, hd, List.reverse_nil]
      rw [hw] at h
      cases h
    · have hdf : isSpc d = false := dropWhile_head_false isSpc (trimLeft l).reverse d zs hd
      have hform : c :: xs = zs.reverse ++ [d] := by
        rw [← h, trim, trimRight, hd, List.reverse_cons]
      calc trim (c :: xs) = trimRight (trimLeft (c :: xs)) := rfl
        _ = trimRight (c :: xs) := by rw [trimLeft_cons c xs hc]
        _ = c :: xs := by rw [hform]; exact trimRight_concat zs.reverse d hdf

theorem trim_wrap (c : Char) (xs : List Char) (d : Char)
    (hc : isSpc c = false) (hd : isSpc d = false) :
    trim (c :: (xs ++ [d])) = c :: (xs ++ [d]) := by
  rw [trim, trimLeft_cons _ _ hc, show c :: (xs ++ [d]) = (c :: xs) ++ [d] from rfl]
  exact trimRight_concat (c :: xs) d hd

/-- C10: every block emitted by the paragraph stage of `markdown_to_html`
is non-empty and equal to its own strip (no leading or trailing
whitespace): blocks that are empty or whitespace-only after substitution
are dropped, so the rendered output never contains an empty paragraph
element and never begins or ends with a blank block. -/
theorem c10_blocks_nonempty_trimmed (md b : List Char) (h : b ∈ mdBlocks md) :
    b ≠ [] ∧ trim b = b := by
  rw [mdBlocks, List.mem_filterMap] at h
  obtain ⟨a, _, ha⟩ := h
  rw [blockOut] at ha
  by_cases h0 : trim a = []
  · rw [if_pos h0] at ha; cases ha
  · rw [if_neg h0] at ha
    by_cases hh : (str "<h").isPrefixOf (trim a) = true
    · simp only [hh, if_true, Option.some.injEq] at ha
      subst ha
      exact ⟨h0, trim_trim a⟩
    · simp only [hh, if_false, Bool.false_eq_true, Option.some.injEq] at ha
      subst ha
      constructor
      · simp [str]
      · have hshape : (str "<p>") ++ trim a ++ (str "</p>") =
            '<' :: (('p' :: '>' :: (trim a ++ ['<', '/', 'p'])) ++ ['>']) := by
          simp [str]
        rw [hshape]
        exact trim_wrap '<' _ '>' (by decide) (by decide)

/-- Concrete instance of the C10 block invariant. -/
theorem c10_witness :
    (str "<p>x</p>") ∈ mdBlocks (str "x") ∧
      ((str "<p>x</p>") ≠ [] ∧ trim (str "<p>x</p>") = str "<p>x</p>") :=
  ⟨by decide, c10_blocks_nonempty_trimmed (str "x") (str "<p>x</p>") (by decide)⟩

/-! ## Lemmas about frontmatter recognition -/

theorem splitOnNl_dash (rest : List Char) :
    splitOnNl ('-' :: '-' :: '-' :: '\n' :: rest) = (str "---") :: splitOnNl rest := by
  simp [splitOnNl, str]

theorem splitFirst_eq (pat : List Char) (l : List Char) :
    ∀ pre post, splitFirst pat l = some (pre, post) → l = pre ++ pat ++ post := by
  induction l with
  | nil =>
    intro pre post h
    rw [splitFirst] at h
    by_cases hp : pat.isPrefixOf ([] : List Char) = true
    · rw [if_pos hp] at h
      obtain ⟨t, ht⟩ := List.isPrefixOf_iff_prefix.mp hp
      cases (List.append_eq_nil.mp ht).1
      cases h
      simp
    · rw [if_neg hp] at h
      cases h
  | cons c rest ih =>
    intro pre post h
    rw [splitFirst] at h
    by_cases hp : pat.isPrefixOf (c :: rest) = true
    · rw [if_pos hp] at h
      obtain ⟨t, ht⟩ := List.isPrefixOf_iff_prefix.mp hp
      cases h
      rw [← ht, List.nil_append, List.drop_left]
    · rw [if_neg hp] at h
      cases hsp : splitFirst pat rest with
      | none => rw [hsp] at h; cases h
      | some p =>
        obtain ⟨pre', post'⟩ := p
        simp only [hsp, Option.some.injEq, Prod.mk.injEq] at h
        obtain ⟨hpre, hpost⟩ := h
        subst hpre
        subst hpost
        rw [List.cons_append, List.cons_append, ← ih pre' post' hsp]

theorem splitFirst_delim_mem (l : List Char) :
    ∀ p, splitFirst (str "\n---\n") l = some p → (str "---") ∈ (splitOnNl l).tail := by
  induction l with
  | nil =>
    intro p h
    rw [splitFirst] at h
    rw [if_neg (by decide)] at h
    cases h
  | cons c rest ih =>
    intro p h
    rw [splitFirst] at h
    by_cases hp : (str "\n---\n").isPrefixOf (c :: rest) = true
    · obtain ⟨t, ht⟩ := List.isPrefixOf_iff_prefix.mp hp
      have hct : c :: rest = '\n' :: '-' :: '-' :: '-' :: '\n' :: t := ht.symm
      cases hct
      rw [show splitOnNl ('\n' :: '-' :: '-' :: '-' :: '\n' :: t) =
            [] :: splitOnNl ('-' :: '-' :: '-' :: '\n' :: t) from by simp [splitOnNl],
          splitOnNl_dash]
      simp
    · rw [if_neg hp] at h
      cases hsp : splitFirst (str "\n---\n") rest with
      | none => rw [hsp] at h; cases h
      | some p' =>
        have hmem := ih p' hsp
        by_cases hc : c = '\n'
        · subst hc
          rw [show splitOnNl ('\n' :: rest) = [] :: splitOnNl rest from by simp [splitOnNl]]
          exact List.mem_of_mem_tail hmem
        · rw [show splitOnNl (c :: rest) =
              (c :: (splitOnNl rest).headD []) :: (splitOnNl rest).tail from by
                simp [splitOnNl, hc]]
          exact hmem

/-- C3, amended: for input whose first line is not the `---` marker,
`parse_frontmatter` returns empty metadata and the input **unchanged** as
the body (the parser itself does no stripping). -/
theorem c3_no_marker_body_unchanged (content : List Char)
    (h : (splitOnNl content).head? ≠ some (str "---")) :
    parse_frontmatter content = ([], content) := by
  by_cases hp : (str "---\n").isPrefixOf content = true
  · exfalso
    obtain ⟨t, ht⟩ := List.isPrefixOf_iff_prefix.mp hp
    have hc : content = '-' :: '-' :: '-' :: '\n' :: t := ht.symm
    rw [hc, splitOnNl_dash] at h
    exact h rfl
  · rw [parse_frontmatter, fmSplit, if_neg hp]

/-- Concrete instance of the amended C3. -/
theorem c3_witness : parse_frontmatter (str "hello") = ([], str "hello") :=
  c3_no_marker_body_unchanged (str "hello") (by decide)

/-- C3 as stated is false: on input `" x "` (no marker line) the parser
returns the body `" x "` unchanged, which differs from the stripped input
`"x"` the claim asserts. -/
theorem c3_counterexample :
    parse_frontmatter (str " x ") = ([], str " x ") ∧
      trim (str " x ") ≠ str " x " ∧
      (splitOnNl (str " x ")).head? ≠ some (str "---") := by
  refine ⟨by decide, by decide, by decide⟩

/-- C5: for input whose first line is the opening `---` marker but which has
no further `---` line, the parser returns an empty metadata mapping and the
original text as body — the mapping is never partially populated. -/
theorem c5_unterminated_block (content : List Char)
    (h1 : (splitOnNl content).head? = some (str "---"))
    (h2 : (str "---") ∉ (splitOnNl content).tail) :
    parse_frontmatter content = ([], content) := by
  by_cases hp : (str "---\n").isPrefixOf content = true
  · obtain ⟨t, ht⟩ := List.isPrefixOf_iff_prefix.mp hp
    have hc : content = '-' :: '-' :: '-' :: '\n' :: t := ht.symm
    subst hc
    rw [splitOnNl_dash] at h2
    simp only [List.tail_cons] at h2
    rw [parse_frontmatter, fmSplit, if_pos hp]
    cases hsp : splitFirst (str "\n---\n") (('-' :: '-' :: '-' :: '\n' :: t).drop 4) with
    | none => rfl
    | some p =>
      exfalso
      have : (str "---") ∈ (splitOnNl t).tail := splitFirst_delim_mem t p hsp
      exact h2 (List.mem_of_mem_tail this)
  · rw [parse_frontmatter, fmSplit, if_neg hp]

/-- Concrete instance of C5: an opening marker with no closing marker. -/
theorem c5_witness :
    parse_frontmatter (str "---\ntitle: x\nbody text") =
      ([], str "---\ntitle: x\nbody text") :=
  c5_unterminated_block (str "---\ntitle: x\nbody text") (by decide) (by decide)

/-- C9: a frontmatter block is recognized only when the text decomposes as
`---\n`, the block, `\n---\n`, the body — so the closing `---` must be
followed by a newline and at least one (possibly empty) line separates the
two markers. In particular a document whose closing `---` ends the file
without a newline, and one with nothing at all between the two markers,
are both treated as having no frontmatter. -/
theorem c9_recognition_shape :
    (∀ content pre post, fmSplit content = some (pre, post) →
        content = (str "---\n") ++ pre ++ (str "\n---\n") ++ post) ∧
      parse_frontmatter (str "---\ntitle: x\n---") = ([], str "---\ntitle: x\n---") ∧
      parse_frontmatter (str "---\n---\n") = ([], str "---\n---\n") := by
  refine ⟨?_, by decide, by decide⟩
  intro content pre post h
  rw [fmSplit] at h
  by_cases hp : (str "---\n").isPrefixOf content = true
  · rw [if_pos hp] at h
    obtain ⟨t, ht⟩ := List.isPrefixOf_iff_prefix.mp hp
    have hc : content = '-' :: '-' :: '-' :: '\n' :: t := ht.symm
    subst hc
    have hd : ('-' :: '-' :: '-' :: '\n' :: t).drop 4 = t := rfl
    rw [hd] at h
    have := splitFirst_eq (str "\n---\n") t pre post h
    rw [show ('-' :: '-' :: '-' :: '\n' :: t) = (str "---\n") ++ t from rfl, this]
    simp
  · rw [if_neg hp] at h
    cases h

/-- Concrete instance of the C9 decomposition. -/
theorem c9_witness :
    str "---\na: b\n---\nX" =
      (str "---\n") ++ (str "a: b") ++ (str "\n---\n") ++ (str "X") :=
  c9_recognition_shape.1 (str "---\na: b\n---\nX") (str "a: b") (str "X") (by decide)

/-! ## Lemmas about the metadata dictionary -/

theorem dictGet_insertKV (m : List (List Char × List Char)) (k v k' : List Char) :
    dictGet (insertKV m k v) k' = if k' = k then some v else dictGet m k' := by
  rw [insertKV]
  by_cases hany : m.any (fun p => p.1 == k) = true
  · rw [if_pos hany, dictGet, List.find?_map]
    have hcomp : ((fun p : List Char × List Char => p.1 == k') ∘
        (fun p => if p.1 == k then (k, v) else p)) = (fun p => p.1 == k') := by
      funext p
      by_cases hpk : (p.1 == k) = true
      · simp only [Function.comp_apply, if_pos hpk]
        rw [eq_of_beq hpk]
      · simp only [Function.comp_apply, if_neg hpk]
    rw [hcomp]
    by_cases hk : k' = k
    · subst hk
      obtain ⟨q, hq, hqk⟩ := List.any_eq_true.mp hany
      have hs : (m.find? (fun p => p.1 == k')).isSome :=
        List.find?_isSome.mpr ⟨q, hq, hqk⟩
      obtain ⟨q0, hq0⟩ := Option.isSome_iff_exists.mp hs
      rw [hq0]
      have hq0k := List.find?_some hq0
      simp [eq_of_beq hq0k]
    · rw [if_neg hk]
      cases hf : m.find? (fun p => p.1 == k') with
      | none => simp [dictGet, hf]
      | some q =>
        have hqk' := List.find?_some hf
        have hq1 : q.1 = k' := eq_of_beq hqk'
        simp [dictGet, hf, hq1, hk]
  · rw [if_neg hany, dictGet, List.find?_append]
    have hnone : m.find? (fun p => p.1 == k) = none := by
      rw [List.find?_eq_none]
      intro x hx hxk
      exact hany (List.any_eq_true.mpr ⟨x, hx, hxk⟩)
    by_cases hk : k' = k
    · subst hk
      rw [hnone]
      simp [dictGet, List.find?]
    · rw [if_neg hk]
      have hkk : (k == k') = false := by
        rw [beq_eq_false_iff_ne]
        intro he
        exact hk he.symm
      have hsingle : List.find? (fun p => p.1 == k') [(k, v)] = none := by
        simp [List.find?, hkk]
      rw [hsingle, Option.or_none, dictGet]

theorem dictGet_foldl_fmLine (lines : List (List Char)) :
    ∀ (m : List (List Char × List Char)) (k : List Char),
      dictGet (lines.foldl fmLine m) k =
        match specLastKV lines k with
        | some v => some v
        | none => dictGet m k := by
  induction lines with
  | nil => intro m k; rfl
  | cons l ls ih =>
    intro m k
    rw [List.foldl_cons, ih (fmLine m l) k]
    cases hkv : lineKV l with
    | none =>
      have hspec : specLastKV (l :: ls) k = specLastKV ls k := by
        simp [specLastKV, List.filterMap_cons, hkv]
      have hfm : fmLine m l = m := by rw [fmLine, hkv]
      rw [hspec, hfm]
    | some kv =>
      obtain ⟨k0, v0⟩ := kv
      have hfm : fmLine m l = insertKV m k0 v0 := by rw [fmLine, hkv]
      have hspec : specLastKV (l :: ls) k =
          match specLastKV ls k with
          | some v => some v
          | none => if k = k0 then some v0 else none := by
        rw [specLastKV, List.filterMap_cons, hkv, List.reverse_cons, List.find?_append]
        cases hf : (ls.filterMap lineKV).reverse.find? (fun p => p.1 == k) with
        | some q => simp [specLastKV, hf]
        | none =>
          by_cases hk : k = k0
          · subst hk
            simp [specLastKV, hf, List.find?]
          · have : ((k0, v0).1 == k) = false := by
              rw [beq_eq_false_iff_ne]
              exact fun h => hk h.symm
            simp [specLastKV, hf, List.find?, this, hk]
      rw [hspec, hfm]
      cases hsl : specLastKV ls k with
      | some v => rfl
      | none =>
        rw [dictGet_insertKV]
        by_cases hk : k = k0
        · simp [hk]
        · simp [hk]

/-- C6: inside a recognized frontmatter block, a line containing the colon
separator is split at its first colon into a stripped key and stripped
value (`lineKV`), lines without a colon are ignored without error, and
when the same key occurs on several lines the mapping stores the value of
the last occurrence: looking a key up in the parsed metadata agrees with
the spec-side `specLastKV`. -/
theorem c6_last_occurrence_wins :
    (∀ content pre post k, fmSplit content = some (pre, post) →
        dictGet (parse_frontmatter content).1 k = specLastKV (splitOnNl pre) k) ∧
      lineKV (str " key : a:b ") = some (str "key", str "a:b") ∧
      lineKV (str "no separator here") = none := by
  refine ⟨?_, by decide, by decide⟩
  intro content pre post k h
  simp only [parse_frontmatter, h]
  rw [parseFmLines, dictGet_foldl_fmLine]
  cases hs : specLastKV (splitOnNl pre) k with
  | none => rfl
  | some v => rfl

/-- Concrete instance of C6: the later `a: 2` line overrides `a: 1`,
and the lookup agrees with the spec-side description. -/
theorem c6_witness :
    dictGet (parse_frontmatter (str "---\na: 1\nskip\na: 2\n---\nX")).1 (str "a") =
      specLastKV (splitOnNl (str "a: 1\nskip\na: 2")) (str "a") :=
  c6_last_occurrence_wins.1 (str "---\na: 1\nskip\na: 2\n---\nX")
    (str "a: 1\nskip\na: 2") (str "X") (str "a") (by decide)

/-! ## Lemmas about the index ordering -/

theorem lexLe_refl (l : List Char) : lexLe l l = true := by
  induction l with
  | nil => rfl
  | cons c rest ih => simp [lexLe, lt_irrefl, ih]

theorem lexLe_total (a : List Char) : ∀ b, lexLe a b = true ∨ lexLe b a = true := by
  induction a with
  | nil => intro b; left; rfl
  | cons x xs ih =>
    intro b
    cases b with
    | nil => right; rfl
    | cons y ys =>
      rcases lt_trichotomy x y with h | h | h
      · left; simp [lexLe, h]
      · subst h
        rcases ih ys with h2 | h2
        · left; simp [lexLe, lt_irrefl, h2]
        · right; simp [lexLe, lt_irrefl, h2]
      · right; simp [lexLe, h]

theorem lexLe_trans (a : List Char) :
    ∀ b c, lexLe a b = true → lexLe b c = true → lexLe a c = true := by
  induction a with
  | nil => intro b c h1 h2; rfl
  | cons x xs ih =>
    intro b c h1 h2
    cases b with
    | nil => simp [lexLe] at h1
    | cons y ys =>
      cases c with
      | nil => simp [lexLe] at h2
      | cons z zs =>
        simp only [lexLe] at h1 h2 ⊢
        by_cases hxy : x < y
        · by_cases hyz : y < z
          · simp [lt_trans hxy hyz]
          · by_cases hzy : z < y
            · simp [hyz, hzy] at h2
            · have hyz' : y = z := le_antisymm (not_lt.mp hzy) (not_lt.mp hyz)
              subst hyz'
              simp [hxy]
        · by_cases hyx : y < x
          · simp [hxy, hyx] at h1
          · have hxy' : x = y := le_antisymm (not_lt.mp hyx) (not_lt.mp hxy)
            subst hxy'
            simp only [lt_irrefl, if_false] at h1
            by_cases hxz : x < z
            · simp [hxz]
            · by_cases hzx : z < x
              · simp [hxz, hzx] at h2
              · have hxz' : x = z := le_antisymm (not_lt.mp hzx) (not_lt.mp hxz)
                subst hxz'
                simp only [lt_irrefl, if_false] at h2 ⊢
                exact ih ys zs h1 h2

instance : IsTotal PostRec postGe :=
  ⟨fun p q => by
    rcases lexLe_total q.date p.date with h | h
    · exact Or.inl h
    · exact Or.inr h⟩

instance : IsTrans PostRec postGe :=
  ⟨fun a b c h1 h2 => lexLe_trans c.date b.date a.date h2 h1⟩

theorem filter_orderedInsert_pos (q : PostRec) (d : List Char) (hq : q.date = d) :
    ∀ l : List PostRec,
      (List.orderedInsert postGe q l).filter (fun p => p.date == d) =
        q :: l.filter (fun p => p.date == d) := by
  intro l
  induction l with
  | nil => simp [List.orderedInsert, List.filter, hq]
  | cons b bs ih =>
    rw [List.orderedInsert]
    by_cases hr : postGe q b
    · rw [if_pos hr]
      simp [List.filter_cons, hq]
    · rw [if_neg hr]
      have hbd : (b.date == d) = false := by
        rw [beq_eq_false_iff_ne]
        intro he
        apply hr
        rw [postGe, he, hq]
        exact lexLe_refl d
      simp [List.filter_cons, hbd, ih]

theorem filter_orderedInsert_neg (q : PostRec) (d : List Char) (hq : q.date ≠ d) :
    ∀ l : List PostRec,
      (List.orderedInsert postGe q l).filter (fun p => p.date == d) =
        l.filter (fun p => p.date == d) := by
  intro l
  have hqd : (q.date == d) = false := beq_eq_false_iff_ne.mpr hq
  induction l with
  | nil => simp [List.orderedInsert, List.filter, hqd]
  | cons b bs ih =>
    rw [List.orderedInsert]
    by_cases hr : postGe q b
    · rw [if_pos hr]
      simp [List.filter_cons, hqd]
    · rw [if_neg hr]
      simp [List.filter_cons, ih]

theorem build_index_sorted_stable (posts : List PostRec) (d : List Char) :
    (build_index_sorted posts).filter (fun p => p.date == d) =
      posts.filter (fun p => p.date == d) := by
  induction posts with
  | nil => rfl
  | cons p ps ih =>
    simp only [build_index_sorted, List.insertionSort] at ih ⊢
    by_cases hd : p.date = d
    · rw [filter_orderedInsert_pos p d hd _, ih, List.filter_cons]
      simp [hd]
    · rw [filter_orderedInsert_neg p d hd _, ih, List.filter_cons]
      simp [beq_eq_false_iff_ne.mpr hd]

/-- C8: the index orders the records by their `date` string in descending
lexical order with a stable sort: the result is sorted under `postGe`
(every record's date is lexically ≥ all later ones), is a permutation of
the input, and records sharing any fixed date keep their original relative
order; the three dates of the claim come out in the stated order. -/
theorem c8_sort_desc_stable :
    (∀ posts : List PostRec, List.Sorted postGe (build_index_sorted posts)) ∧
      (∀ posts : List PostRec, (build_index_sorted posts).Perm posts) ∧
      (∀ (posts : List PostRec) (d : List Char),
        (build_index_sorted posts).filter (fun p => p.date == d) =
          posts.filter (fun p => p.date == d)) ∧
      (build_index_sorted
          [⟨str "p1", str "2024-01-01", [], str "a"⟩,
           ⟨str "p2", str "2024-06-15", [], str "b"⟩,
           ⟨str "p3", str "2023-12-31", [], str "c"⟩]).map PostRec.date =
        [str "2024-06-15", str "2024-01-01", str "2023-12-31"] := by
  refine ⟨fun posts => List.sorted_insertionSort postGe posts,
    fun posts => List.perm_insertionSort postGe posts,
    build_index_sorted_stable, by decide⟩

/-! ## Post builder claims -/

/-- C1 as stated is false: a document with no `title` key still produces a
Post Record — with title `Untitled` — rather than zero records and a
warning. -/
theorem c1_counterexample :
    build_batch [(str "hello", str "s")] = [⟨str "Untitled", [], [], str "s"⟩] ∧
      dictGet (parse_frontmatter (str "hello")).1 (str "title") = none := by
  refine ⟨by decide, by decide⟩

/-- C1, amended: the builder never rejects a document — the batch keeps one
record per document — and when `title` is missing the record's title
defaults to `Untitled`. -/
theorem c1_default_title :
    (∀ docs, (build_batch docs).length = docs.length) ∧
      (∀ content slug, dictGet (parse_frontmatter content).1 (str "title") = none →
        (build_post content slug).title = str "Untitled") := by
  constructor
  · intro docs
    rw [build_batch, List.length_map]
  · intro content slug h
    simp [build_post, h]

/-- Concrete instance of the amended C1. -/
theorem c1_witness : (build_post (str "hello") (str "s")).title = str "Untitled" :=
  c1_default_title.2 (str "hello") (str "s") (by decide)

/-- C2 as stated is false: a document whose `date` does not parse still
produces a Post Record, with the raw date string kept as the formatted
date. -/
theorem c2_counterexample :
    build_post (str "---\ntitle: T\ndate: 2024-13-40\n---\nB") (str "s") =
        ⟨str "T", str "2024-13-40", str "2024-13-40", str "s"⟩ ∧
      dateParse (str "2024-13-40") = none := by
  refine ⟨by decide, by decide⟩

/-- C2, amended: when the frontmatter `date` is present, non-empty and
rejected by `strptime`, the builder still produces a Post Record whose
formatted display date equals the raw date string, and the batch goes on. -/
theorem c2_invalid_date_kept (content slug d : List Char)
    (h1 : dictGet (parse_frontmatter content).1 (str "date") = some d)
    (h2 : d ≠ []) (h3 : dateParse d = none) :
    (build_post content slug).formatted_date = d ∧
      (build_post content slug).date = d ∧
      (build_batch [(content, slug)]).length = 1 := by
  refine ⟨?_, ?_, rfl⟩
  · simp [build_post, h1, h2, h3]
  · simp [build_post, h1]

/-- Concrete instance of the amended C2. -/
theorem c2_witness :
    (build_post (str "---\ntitle: T\ndate: 2024-13-40\n---\nB") (str "s")).formatted_date =
        str "2024-13-40" ∧
      (build_post (str "---\ntitle: T\ndate: 2024-13-40\n---\nB") (str "s")).date =
        str "2024-13-40" ∧
      (build_batch [(str "---\ntitle: T\ndate: 2024-13-40\n---\nB", str "s")]).length = 1 :=
  c2_invalid_date_kept (str "---\ntitle: T\ndate: 2024-13-40\n---\nB") (str "s")
    (str "2024-13-40") (by decide) (by decide) (by decide)

/-- C4 as stated is false: `<p>hello</p>` is the renderer's own output on
`hello` and contains no markdown syntax, yet rendering it again wraps it in
a second paragraph element. -/
theorem c4_counterexample :
    markdown_to_html (str "hello") = str "<p>hello</p>" ∧
      markdown_to_html (str "<p>hello</p>") = str "<p><p>hello</p></p>" ∧
      markdown_to_html (str "<p>hello</p>") ≠ str "<p>hello</p>" := by
  refine ⟨by decide, by decide, by decide⟩

/-- C4, amended: rendering is deterministic (it is a pure function of the
input), and re-rendering is stable on fragments made of heading elements,
but paragraph-wrapped fragments are wrapped again on each application. -/
theorem c4_deterministic :
    (∀ s, markdown_to_html s = markdown_to_html s) ∧
      markdown_to_html (markdown_to_html (str "# Hi")) = markdown_to_html (str "# Hi") ∧
      markdown_to_html (str "<h2>x</h2>") = str "<h2>x</h2>" :=
  ⟨fun _ => rfl, by decide, by decide⟩

/-- C7: the double-asterisk rule runs before the single-asterisk rule, so
`**a**` renders as one bold element and `*a*` as one italic element; the
last conjunct shows the single-asterisk rule alone would instead have
produced an italic element from `**a**`'s asterisks. -/
theorem c7_strong_before_em :
    markdown_to_html (str "**a**") = str "<p><strong>a</strong></p>" ∧
      markdown_to_html (str "*a*") = str "<p><em>a</em></p>" ∧
      subEm (str "**a**") = str "<em>*a</em>*" := by
  refine ⟨by decide, by decide, by decide⟩

example : parse_frontmatter (str "hello") = ([], str "hello") := by decide

example : parse_frontmatter (str "---\ntitle: x\n---") = ([], str "---\ntitle: x\n---") := by
  decide

example : markdown_to_html (str "# Hi\n\nSome **bold** text.") =
    str "<h1>Hi</h1>\n\n<p>Some <strong>bold</strong> text.</p>" := by decide



example : markdown_to_html (str "[lbl](url)") =
    str "<p><a href=\x22url\x22>lbl</a></p>" := by decide

example : markdown_to_html (str "`x` and `y`") =
    str "<p><code>x</code> and <code>y</code></p>" := by decide

end Build
